import Mathlib

/-!
Verification of a Telegram YouTube-downloader bot (single module `main.py`)
against its natural-language specification.

The development shallowly embeds the program's pure logic:

* `extract_video_id` (main.py lines 39-56), together with models of the
  pieces of CPython's `urllib.parse` (`urlparse`, `parse_qs`) and of the
  three `re` patterns that the function uses;
* the format filter / dedup / sort pipeline of
  `VideoDownloader.get_video_info` (main.py lines 115-135);
* the tail of `VideoDownloader.download` (main.py lines 151-161), with the
  external extraction/transcoding collaborator abstracted as an oracle;
* the `process_format_selection` callback handler (main.py lines 186-226),
  with the chat transport and the downloader call abstracted as oracles.

Strings are modelled as Lean `String`s / `List Char`; machine-level details
(real filesystem, event loop) are modelled as explicit state.
-/

/-! ### Character classes used by the parser model -/

/-- ASCII letter (`str.isascii() and str.isalpha()` in CPython's scheme check). -/
def isAsciiAlpha (c : Char) : Bool :=
  (65 ≤ c.toNat && c.toNat ≤ 90) || (97 ≤ c.toNat && c.toNat ≤ 122)

/-- ASCII digit. -/
def isAsciiDigit (c : Char) : Bool :=
  48 ≤ c.toNat && c.toNat ≤ 57

/-- The character class `[0-9A-Za-z_-]` of the video-id patterns in
`extract_video_id` (main.py line 49). -/
def isIdChar (c : Char) : Bool :=
  isAsciiDigit c || isAsciiAlpha c || c == '_' || c == '-'

/-- Characters allowed in a URL scheme by `urllib.parse`
(`scheme_chars = letters + digits + '+-.'`). -/
def isSchemeChar (c : Char) : Bool :=
  isAsciiAlpha c || isAsciiDigit c || c == '+' || c == '-' || c == '.'

/-- WHATWG C0-control-or-space class: codepoints `0x00`–`0x20`; CPython's
`urlsplit` strips these from the left of the URL. -/
def isC0ControlOrSpace (c : Char) : Bool :=
  c.toNat ≤ 32

/-- The bytes CPython's `urlsplit` removes anywhere in the URL:
tab, carriage return, line feed (`_UNSAFE_URL_BYTES_TO_REMOVE`). -/
def isUnsafeUrlChar (c : Char) : Bool :=
  c == '\t' || c == '\r' || c == '\n'

/-! ### `re.sub(r'\?si=.*', '', url)` (main.py line 42)

The regex replaces, left to right, every occurrence of the literal `?si=`
together with all following characters up to (but not including) the next
newline, because `.` does not match `\n`.  `subSiAux` simulates the scan:
the `Bool` flag is `true` while characters of a current match are being
consumed. -/

def subSiAux : Bool → List Char → List Char
  | _, [] => []
  | true, '\n' :: rest => '\n' :: subSiAux false rest
  | true, _ :: rest => subSiAux true rest
  | false, '?' :: 's' :: 'i' :: '=' :: rest => subSiAux true rest
  | false, c :: rest => c :: subSiAux false rest

/-- `re.sub(r'\?si=.*', '', url)` from `extract_video_id`. -/
def subSi (l : List Char) : List Char :=
  subSiAux false l

/-! ### A model of `urllib.parse.urlparse` / `parse_qs`

Translated from CPython's `urllib/parse.py` (`urlsplit`, `_splitparams`,
`parse_qsl`, `unquote`), restricted to the features `extract_video_id`
exercises.  The one raising path that is modelled is the "Invalid IPv6 URL"
`ValueError` for a netloc with unbalanced square brackets, which exists in
every CPython version; version-dependent raises for exotic non-ASCII netlocs
are not modelled.  Percent-escapes are decoded byte-to-codepoint; the UTF-8
re-decoding CPython applies to multi-byte escape sequences is not modelled
(it differs only for escapes of bytes at or above 0x80). -/

structure UrlParts where
  scheme : List Char
  netloc : List Char
  path : List Char
  params : List Char
  query : List Char
  fragment : List Char
deriving DecidableEq, Repr

/-- Index of the first occurrence of `c`, if any. -/
def findCharIdx (c : Char) (l : List Char) : Option Nat :=
  l.findIdx? (· == c)

/-- Index of the last occurrence of `c`; meaningful only when `c ∈ l`. -/
def lastCharIdx (c : Char) (l : List Char) : Nat :=
  match l.reverse.findIdx? (· == c) with
  | some j => l.length - 1 - j
  | none => 0

/-- Split at the first occurrence of `c` (the separator is dropped), as
`str.split(c, 1)` does when the separator occurs. -/
def splitFirst (c : Char) (l : List Char) : Option (List Char × List Char) :=
  match findCharIdx c l with
  | some i => some (l.take i, l.drop (i + 1))
  | none => none

/-- CPython scheme recognition: a scheme is stripped when `:` occurs at a
positive index, the first character is an ASCII letter, and everything before
the colon is a scheme character.  Returns `(scheme lowercased, remainder)`. -/
def splitScheme (l : List Char) : List Char × List Char :=
  match findCharIdx ':' l with
  | none => ([], l)
  | some i =>
    if 0 < i && isAsciiAlpha (l.headD ' ') && (l.take i).all isSchemeChar then
      ((l.take i).map Char.toLower, l.drop (i + 1))
    else ([], l)

/-- `_splitnetloc` plus the bracket balance check of `urlsplit`: when the
remainder starts with `//`, the netloc extends to the next `/`, `?` or `#`;
a netloc containing `[` without `]` (or vice versa) raises
`ValueError("Invalid IPv6 URL")`. -/
def splitNetloc (l : List Char) : Except String (List Char × List Char) :=
  match l with
  | '/' :: '/' :: rest =>
    let stop : Char → Bool := fun c => c == '/' || c == '?' || c == '#'
    let netloc := rest.takeWhile (fun c => !stop c)
    let rest2 := rest.dropWhile (fun c => !stop c)
    if (netloc.contains '[') != (netloc.contains ']') then
      .error "Invalid IPv6 URL"
    else
      .ok (netloc, rest2)
  | _ => .ok ([], l)

/-- `urllib.parse.urlsplit` (without the `params` split). -/
def urlsplitL (url : List Char) : Except String UrlParts :=
  let u1 := url.dropWhile isC0ControlOrSpace
  let u2 := u1.filter (fun c => !isUnsafeUrlChar c)
  let sr := splitScheme u2
  match splitNetloc sr.2 with
  | .error e => .error e
  | .ok (netloc, r2) =>
    let fr := match splitFirst '#' r2 with
      | some (a, b) => (a, b)
      | none => (r2, ([] : List Char))
    let qr := match splitFirst '?' fr.1 with
      | some (a, b) => (a, b)
      | none => (fr.1, ([] : List Char))
    .ok ⟨sr.1, netloc, qr.1, [], qr.2, fr.2⟩

/-- `_splitparams`: parameters after the first `;` at or after the final
`/` are split off the path. -/
def splitParams (p : List Char) : List Char × List Char :=
  if p.contains ';' then
    if p.contains '/' then
      let k := lastCharIdx '/' p
      match (p.drop k).findIdx? (· == ';') with
      | some j => (p.take (k + j), p.drop (k + j + 1))
      | none => (p, [])
    else
      match findCharIdx ';' p with
      | some i => (p.take i, p.drop (i + 1))
      | none => (p, [])
  else (p, [])

/-- `urllib.parse.urlparse`. -/
def urlparseL (url : List Char) : Except String UrlParts :=
  match urlsplitL url with
  | .error e => .error e
  | .ok u =>
    let pp := splitParams u.path
    .ok { u with path := pp.1, params := pp.2 }

/-- Value of a hex digit, if `c` is one (`urllib`'s `_hextobyte` accepts both
cases). -/
def hexDigitVal (c : Char) : Option Nat :=
  if 48 ≤ c.toNat && c.toNat ≤ 57 then some (c.toNat - 48)
  else if 65 ≤ c.toNat && c.toNat ≤ 70 then some (c.toNat - 55)
  else if 97 ≤ c.toNat && c.toNat ≤ 102 then some (c.toNat - 87)
  else none

/-- `urllib.parse.unquote`: `%XX` with two hex digits becomes the byte `XX`
(taken here as a codepoint); an invalid escape leaves `%` literal. -/
def unquoteL : List Char → List Char
  | [] => []
  | '%' :: h1 :: h2 :: rest =>
    match hexDigitVal h1, hexDigitVal h2 with
    | some a, some b => Char.ofNat (16 * a + b) :: unquoteL rest
    | _, _ => '%' :: unquoteL (h1 :: h2 :: rest)
  | c :: rest => c :: unquoteL rest

/-- `urllib.parse.unquote_plus`: `+` becomes a space, then `unquote`. -/
def unquotePlus (l : List Char) : List Char :=
  unquoteL (l.map (fun c => if c == '+' then ' ' else c))

/-- One `name=value` item of `parse_qsl` with the default settings
(`keep_blank_values=False`, `strict_parsing=False`): an empty item, an item
without `=`, and an item with an empty value are all dropped. -/
def qsPair (nv : List Char) : Option (List Char × List Char) :=
  if nv.isEmpty then none
  else
    match findCharIdx '=' nv with
    | none => none
    | some i =>
      let value := nv.drop (i + 1)
      if value.isEmpty then none
      else some (unquotePlus (nv.take i), unquotePlus value)

/-- `urllib.parse.parse_qsl` with the default separator `&`. -/
def parseQsl (qs : List Char) : List (List Char × List Char) :=
  (qs.splitOn '&').filterMap qsPair

/-- The value list `parse_qs(qs)[name]` (empty when the key is absent). -/
def qsValues (qsl : List (List Char × List Char)) (name : List Char) :
    List (List Char) :=
  (qsl.filter (fun p => p.1 == name)).map (·.2)

/-! ### The three `re.search` patterns (main.py lines 49-54)

Pattern 1 is `(?:v=|\/)([0-9A-Za-z_-]{11}).*`: at the leftmost position
where `v=` or `/` is followed by exactly eleven id characters, the group
captures those eleven characters (`.*` always matches and captures nothing).
Patterns 2 and 3 are a literal (`youtu.be/` resp. `youtube.com/embed/`)
followed by the same group.  The searches below simulate `re.search`'s
leftmost-match scan position by position. -/

/-- Match `([0-9A-Za-z_-]{11})` at the start of `l`: the first eleven
characters, provided there are at least eleven and all are id characters. -/
def matchClass11 (l : List Char) : Option (List Char) :=
  let pre := l.take 11
  if pre.length == 11 && pre.all isIdChar then some pre else none

/-- Head test used to model the regex alternative `v=`. -/
def headIs (c : Char) : List Char → Bool
  | x :: _ => x == c
  | [] => false

/-- `re.search` for pattern 1, `(?:v=|\/)([0-9A-Za-z_-]{11}).*`: at each scan
position, the alternative `v=` is tried first, then `/`. -/
def search1 : List Char → Option (List Char)
  | [] => none
  | c :: rest =>
    match (if c == 'v' && headIs '=' rest then matchClass11 (rest.drop 1)
           else none) with
    | some g => some g
    | none =>
      match (if c == '/' then matchClass11 rest else none) with
      | some g => some g
      | none => search1 rest

/-- `re.search` for a literal followed by `([0-9A-Za-z_-]{11})`. -/
def searchLitThen11 (lit : List Char) : List Char → Option (List Char)
  | [] => none
  | c :: rest =>
    match (if lit.isPrefixOf (c :: rest) then
             matchClass11 ((c :: rest).drop lit.length)
           else none) with
    | some g => some g
    | none => searchLitThen11 lit rest

/-- The pattern loop of `extract_video_id` (main.py lines 52-54), applied to
the parsed path. -/
def searchPatterns (path : List Char) : Option String :=
  match search1 path with
  | some g => some (String.mk g)
  | none =>
    match searchLitThen11 "youtu.be/".data path with
    | some g => some (String.mk g)
    | none =>
      match searchLitThen11 "youtube.com/embed/".data path with
      | some g => some (String.mk g)
      | none => none

/-! ### `extract_video_id` (main.py lines 39-56) -/

/-- `extract_video_id(url)`.  `Except.error e` models an uncaught exception
(`urlparse` can raise `ValueError`); `Except.ok` carries the Python return
value (`Some id` or `None`). -/
def extract_video_id (url : String) : Except String (Option String) :=
  match urlparseL (subSi url.data) with
  | .error e => .error e
  | .ok u =>
    match qsValues (parseQsl u.query) ['v'] with
    | v0 :: _ => .ok (some (String.mk v0))
    | [] => .ok (searchPatterns u.path)

/-- First value of the `v` query parameter of a URL as written (no `?si=`
stripping): the formal reading of "the URL's query string contains a
parameter `v` with a non-empty value, whose first value is ...". -/
def vFirstValue (url : String) : Option String :=
  match urlparseL url.data with
  | .error _ => none
  | .ok u => ((qsValues (parseQsl u.query) ['v']).head?).map String.mk

deriving instance DecidableEq for Except

/-! ### The format pipeline of `VideoDownloader.get_video_info`
(main.py lines 115-135)

A raw format entry is a `yt_dlp` info dictionary; the fields below are the
ones the pipeline reads.  An outer `none` models an absent key (`f.get(k)`
returning Python `None`); `height` and `filesize` can also be present with
the value `None`, hence the nested `Option`. -/

structure RawFormat where
  format_id : Option String := none
  ext : Option String := none
  resolution : Option String := none
  height : Option (Option Int) := none
  vcodec : Option String := none
  acodec : Option String := none
  filesize : Option (Option Int) := none
deriving DecidableEq, Repr

/-- The eligibility test of line 120: an entry is skipped exactly when
`f.get('vcodec') == 'none' or f.get('acodec') == 'none'`.  An absent key
gives Python `None`, which compares unequal to the string `'none'`. -/
def eligibleFormat (f : RawFormat) : Bool :=
  !(f.vcodec == some "none" || f.acodec == some "none")

/-- The dedup key of line 126: `f"{resolution}_{f.get('ext', '')}"` with
`resolution = f.get('resolution', 'N/A')`. -/
def formatKey (f : RawFormat) : String :=
  f.resolution.getD "N/A" ++ "_" ++ f.ext.getD ""

/-- The filter-and-dedup loop of lines 116-132; `seen` models the
`seen_resolutions` set. -/
def dedupAux : List RawFormat → List String → List RawFormat
  | [], _ => []
  | f :: fs, seen =>
    if !eligibleFormat f then dedupAux fs seen
    else if formatKey f ∈ seen then dedupAux fs seen
    else f :: dedupAux fs (formatKey f :: seen)

/-- The `formats` list as built by the loop, before sorting. -/
def dedupFormats (fs : List RawFormat) : List RawFormat :=
  dedupAux fs []

/-- The sort key of line 134: `x.get('height', 0) or 0`, i.e. `0` for an
absent key and for a `None` value (and `or 0` is the identity on ints). -/
def keyHeight (f : RawFormat) : Int :=
  match f.height with
  | none => 0
  | some none => 0
  | some (some h) => h

/-- Descending-height comparison used to model
`formats.sort(key=..., reverse=True)`. -/
def heightGE (a b : RawFormat) : Prop :=
  keyHeight b ≤ keyHeight a

instance : DecidableRel heightGE := fun a b =>
  inferInstanceAs (Decidable (keyHeight b ≤ keyHeight a))

instance : IsTotal RawFormat heightGE :=
  ⟨fun a b => (Int.le_total (keyHeight b) (keyHeight a)).elim Or.inl Or.inr⟩

instance : IsTrans RawFormat heightGE :=
  ⟨fun _ _ _ hab hbc => le_trans hbc hab⟩

/-- Lines 115-135 in full: filter, dedup, then the stable descending sort of
line 134.  Python's `list.sort` is stable, and a stable sort by a fixed key
is uniquely determined, so the stable `List.insertionSort` with the
descending relation computes the same list as CPython's Timsort with
`reverse=True`. -/
def resolveFormats (fs : List RawFormat) : List RawFormat :=
  List.insertionSort heightGE (dedupFormats fs)

/-! ### The tail of `VideoDownloader.download` (main.py lines 151-161)

The `yt_dlp` call (`extract_info(download=True)` plus `prepare_filename`)
is abstracted as an oracle `DlCall`: whether the call raised, the file name
it reported, and the filesystem contents after the call.  The filesystem is
a list of existing paths. -/

structure DlCall where
  /-- `some e` when `ydl.extract_info` raised an exception with text `e`. -/
  raised : Option String := none
  /-- The value of `ydl.prepare_filename(info)`. -/
  preparedPath : String := ""
  /-- The set of paths existing after the collaborator call
  (`os.path.exists` consults this). -/
  fsAfter : List String := []
deriving DecidableEq, Repr

/-- `str.endswith('.mp4')`: the last four characters are `.mp4`. -/
def endsWithMp4 (l : List Char) : Bool :=
  l.reverse.take 4 == ['4', 'p', 'm', '.']

/-- `os.path.splitext(p)[0]` for POSIX paths: the extension starts at the
last `.` when that dot lies after the last `/` and the final path component
has a non-dot character before it (leading dots of the component are not
extension separators). -/
def splitextStemL (l : List Char) : List Char :=
  let sepIdx : Int := if l.contains '/' then (lastCharIdx '/' l : Int) else -1
  let dotIdx : Int := if l.contains '.' then (lastCharIdx '.' l : Int) else -1
  if sepIdx < dotIdx then
    let base := (l.take dotIdx.toNat).drop (sepIdx + 1).toNat
    if base.any (fun c => !(c == '.')) then l.take dotIdx.toNat else l
  else l

/-- Lines 155-156: `if not file_path.endswith('.mp4'): file_path =
os.path.splitext(file_path)[0] + '.mp4'`. -/
def rewriteExt (p : String) : String :=
  if endsWithMp4 p.data then p
  else String.mk (splitextStemL p.data ++ ".mp4".data)

/-- The claim's own wording of the rewrite, for comparison with the code:
"the path's final segment after the last `.` is replaced with that
extension" — i.e. everything after the last dot anywhere in the path is
replaced by `mp4` (appended when no dot occurs). -/
def specRewrite (p : String) : String :=
  if endsWithMp4 p.data then p
  else if p.data.contains '.' then
    String.mk (p.data.take (lastCharIdx '.' p.data + 1) ++ "mp4".data)
  else p ++ ".mp4"

/-- `VideoDownloader.download` from line 151 on: result triple
`(success, message, file_path)` as in the Python code, paired with the
filesystem after the call. -/
def downloadRun (o : DlCall) : (Bool × String × Option String) × List String :=
  match o.raised with
  | some e => ((false, "Yuklab olishda xatolik: " ++ e, none), o.fsAfter)
  | none =>
    let fp := rewriteExt o.preparedPath
    if fp ∈ o.fsAfter then ((true, "Success", some fp), o.fsAfter)
    else ((false, "Video yuklab olinmadi", none), o.fsAfter)

/-! ### The `process_format_selection` handler (main.py lines 186-226)

The chat transport is modelled as a trace of outbound actions; the cache is
the global `video_info_cache` dictionary; the filesystem is the same
path-list used by `downloadRun`.  Sends outside the upload `try` block are
modelled as non-raising; a raise anywhere inside the upload `try` block
(lines 205-215) is one oracle, which is what the `except`/`finally` pair
handles. -/

/-- An apostrophe, for building the bot's Uzbek diagnostic strings. -/
def apos : String := String.mk [Char.ofNat 39]

/-- `"Xatolik: Video ma'lumotlari topilmadi!"` (line 191). -/
def notFoundMsg : String :=
  "Xatolik: Video ma" ++ apos ++ "lumotlari topilmadi!"

/-- `"⏳ Video yuklab olinmoqda..."` (line 195). -/
def downloadingMsg : String := "⏳ Video yuklab olinmoqda..."

/-- `"📤 Telegram'ga yuklanmoqda..."` (line 205). -/
def uploadingMsg : String :=
  "📤 Telegram" ++ apos ++ "ga yuklanmoqda..."

/-- A cache entry: the parts of the `video_info` dictionary this handler
reads (`video_info['url']`, `video_info['title']`). -/
structure CachedVideo where
  url : String
  title : String
deriving DecidableEq, Repr

/-- Process state touched by the handler: the `video_info_cache` dictionary
and the filesystem. -/
structure BotState where
  cache : List (String × CachedVideo)
  files : List String
deriving DecidableEq, Repr

/-- `video_id not in video_info_cache` / `video_info_cache[video_id]`. -/
def lookupCache (vid : String) (cache : List (String × CachedVideo)) :
    Option CachedVideo :=
  match cache.find? (fun e => e.1 == vid) with
  | some e => some e.2
  | none => none

/-- Outbound effects of the handler, in order. -/
inductive BotAction where
  | answerCb (text : String)
  | editText (text : String)
  | invokeDownload (url formatId : String)
  | sendVideo (path caption : String)
  | deleteMessage
  | removeFile (path : String)
deriving DecidableEq, Repr

/-- Python's `str.split(sep)` for a single-character separator (used for
`callback_query.data.split('_')`); `acc` holds the current piece reversed. -/
def pySplitAux (sep : Char) : List Char → List Char → List (List Char)
  | [], acc => [acc.reverse]
  | c :: rest, acc =>
    if c == sep then acc.reverse :: pySplitAux sep rest []
    else pySplitAux sep rest (c :: acc)

/-- `data.split(sep)`. -/
def pySplit (sep : Char) (l : List Char) : List (List Char) :=
  pySplitAux sep l []

/-- Oracles for one handler run: the downloader collaborator call and
whether the upload `try` block raises. -/
structure SelOracle where
  dl : DlCall
  /-- `some e` when `edit_text`/`send_video`/`delete` inside the upload
  `try` block raises with text `e`. -/
  uploadRaised : Option String := none
deriving DecidableEq, Repr

/-- `process_format_selection(callback_query)` with
`callback_query.data = data`: returns the new process state and the ordered
trace of outbound effects.  The final catch-all `except` (lines 223-226) is
reached in this model only when `data.split('_')` does not have exactly
three parts (the `ValueError` of the unpacking on line 188); its
diagnostic text (which embeds `str(e)`) is abbreviated to a fixed prefix. -/
def processFormatSelection (data : String) (s : BotState) (o : SelOracle) :
    BotState × List BotAction :=
  match pySplit '_' data.data with
  | [_tag, videoId, formatId] =>
    match lookupCache (String.mk videoId) s.cache with
    | none => (s, [.answerCb notFoundMsg])
    | some info =>
      let r := downloadRun o.dl
      let success := r.1.1
      let msg := r.1.2.1
      let pathOpt := r.1.2.2
      let s1 : BotState := { s with files := r.2 }
      let pre : List BotAction :=
        [.editText downloadingMsg, .invokeDownload info.url (String.mk formatId)]
      if success = false ∨ pathOpt.getD "" = "" then
        (s1, pre ++ [.editText ("❌ Xatolik: " ++ msg)])
      else
        match pathOpt with
        | none => (s1, pre ++ [.editText ("❌ Xatolik: " ++ msg)])
        | some fp =>
          let uploadActs : List BotAction :=
            match o.uploadRaised with
            | none =>
              [.editText uploadingMsg,
               .sendVideo fp ("📹 " ++ info.title),
               .deleteMessage]
            | some e =>
              [.editText uploadingMsg,
               .editText ("❌ Video yuborishda xatolik: " ++ e)]
          (⟨s1.cache, s1.files.filter (fun q => !(q == fp))⟩,
           pre ++ uploadActs ++ [.removeFile fp])
  | _ => (s, [.editText ("❌ Kutilmagan xatolik: ")])

/-! ### Helper lemmas about the pattern searches -/

/-- Members of a `isPrefixOf`-verified prefix are members of the list. -/
theorem mem_of_isPrefixOf :
    ∀ {l1 l2 : List Char}, l1.isPrefixOf l2 = true → ∀ {x : Char}, x ∈ l1 → x ∈ l2
  | [], _, _, _, hx => absurd hx (List.not_mem_nil _)
  | _ :: _, [], h, _, _ => by simp [List.isPrefixOf] at h
  | a :: t1, b :: t2, h, x, hx => by
    rw [List.isPrefixOf, Bool.and_eq_true] at h
    rcases List.mem_cons.mp hx with rfl | hx'
    · exact (eq_of_beq h.1) ▸ List.mem_cons_self _ _
    · exact List.mem_cons_of_mem _ (mem_of_isPrefixOf h.2 hx')

/-- `matchClass11` on a list of id characters: the first eleven characters
when at least eleven are available, nothing otherwise. -/
theorem matchClass11_of_all {tok : List Char}
    (h : ∀ c ∈ tok, isIdChar c = true) :
    matchClass11 tok = if 11 ≤ tok.length then some (tok.take 11) else none := by
  unfold matchClass11
  have hall : (tok.take 11).all isIdChar = true := by
    rw [List.all_eq_true]
    intro c hc
    exact h c (List.mem_of_mem_take hc)
  by_cases hlen : 11 ≤ tok.length
  · have h11 : (tok.take 11).length = 11 := by
      rw [List.length_take]; omega
    simp [h11, hall, hlen]
  · have h11 : (tok.take 11).length = tok.length := by
      rw [List.length_take]; omega
    have hne : ((tok.take 11).length == 11) = false := by
      rw [h11]; simp; omega
    simp [hne, hlen]

/-- Pattern 1 finds nothing inside a run of id characters (no `=`, no `/`). -/
theorem search1_of_all :
    ∀ {l : List Char}, (∀ x ∈ l, isIdChar x = true) → search1 l = none
  | [], _ => rfl
  | c :: rest, h => by
    have hc : isIdChar c = true := h c (List.mem_cons_self c rest)
    have hslash : (c == '/') = false := by
      by_cases hcs : c = '/'
      · subst hcs; exact absurd hc (by decide)
      · simpa using hcs
    have hveq : (c == 'v' && headIs '=' rest) = false := by
      cases rest with
      | nil => simp [headIs]
      | cons r1 r2 =>
        have hr1 : isIdChar r1 = true := h r1 (by simp)
        have h1 : (r1 == '=') = false := by
          by_cases he : r1 = '='
          · subst he; exact absurd hr1 (by decide)
          · simpa using he
        simp [headIs, h1]
    have ih := search1_of_all (l := rest)
      (fun x hx => h x (List.mem_cons_of_mem c hx))
    simp [search1, hveq, hslash, ih]

/-- A literal containing a character absent from the searched list never
matches. -/
theorem searchLitThen11_of_not_mem {lit : List Char} {d : Char} (hd : d ∈ lit) :
    ∀ {l : List Char}, d ∉ l → searchLitThen11 lit l = none
  | [], _ => rfl
  | c :: rest, h => by
    have hpre : lit.isPrefixOf (c :: rest) = false := by
      cases hb : lit.isPrefixOf (c :: rest) with
      | false => rfl
      | true => exact absurd (mem_of_isPrefixOf hb hd) h
    have ih := searchLitThen11_of_not_mem hd (l := rest)
      (fun hm => h (List.mem_cons_of_mem c hm))
    simp [searchLitThen11, hpre, ih]

/-- The pattern loop on a path of the shape `/` + id-token: the first eleven
characters of the token when it has at least eleven characters, no match
otherwise. -/
theorem searchPatterns_slash_token {tok : List Char}
    (h : ∀ c ∈ tok, isIdChar c = true) :
    searchPatterns ('/' :: tok) =
      if 11 ≤ tok.length then some (String.mk (tok.take 11)) else none := by
  have hdotTok : '.' ∉ ('/' :: tok) := by
    intro hm
    rcases List.mem_cons.mp hm with hm' | hm'
    · exact absurd hm' (by decide)
    · exact absurd (h '.' hm') (by decide)
  have hm11 := matchClass11_of_all h
  have hs1 : search1 tok = none := search1_of_all h
  by_cases hlen : 11 ≤ tok.length
  · rw [if_pos hlen] at hm11
    simp [searchPatterns, search1, headIs, hm11, hlen]
  · rw [if_neg hlen] at hm11
    have hlit2 : searchLitThen11 "youtu.be/".data ('/' :: tok) = none :=
      searchLitThen11_of_not_mem (by decide) hdotTok
    have hlit3 : searchLitThen11 "youtube.com/embed/".data ('/' :: tok) = none :=
      searchLitThen11_of_not_mem (by decide) hdotTok
    simp [searchPatterns, search1, headIs, hm11, hs1, hlen, hlit2, hlit3]

/-! ### Claims about the URL parser -/

/-- C1, counterexample.  The claim quantifies over every URL whose query
string carries a non-empty `v` parameter; in
`https://www.youtube.com/watch?si=x&v=abcdefghijk` the query string is
`si=x&v=abcdefghijk`, whose `v` parameter has first value `abcdefghijk`,
yet `extract_video_id` returns `None`: the `re.sub` on line 42 deletes
everything from `?si=` to the end of the line, including the `v`
parameter, before the query string is inspected. -/
theorem extract_vparam_counterexample :
    vFirstValue "https://www.youtube.com/watch?si=x&v=abcdefghijk" =
        some "abcdefghijk" ∧
      extract_video_id "https://www.youtube.com/watch?si=x&v=abcdefghijk" =
        .ok none := by
  constructor
  · decide
  · decide

/-- C1, amended.  For every input URL such that, after deleting the
`?si=...` suffix exactly as line 42 does, the remaining URL's query string
still contains a parameter `v` with a non-empty value, `extract_video_id`
returns that parameter's first value — regardless of the other query
parameters and without consulting the path-pattern fallbacks. -/
theorem extract_vparam_first_value (url v1 : String)
    (h : vFirstValue (String.mk (subSi url.data)) = some v1) :
    extract_video_id url = .ok (some v1) := by
  unfold vFirstValue at h
  unfold extract_video_id
  cases hu : urlparseL (subSi url.data) with
  | error e =>
    rw [show (String.mk (subSi url.data)).data = subSi url.data from rfl, hu] at h
    simp at h
  | ok u =>
    rw [show (String.mk (subSi url.data)).data = subSi url.data from rfl, hu] at h
    dsimp only at h ⊢
    cases hq : qsValues (parseQsl u.query) ['v'] with
    | nil => rw [hq] at h; simp at h
    | cons v0 vs =>
      rw [hq] at h
      simp only [List.head?, Option.map_some, Option.some.injEq] at h
      dsimp only
      rw [← h]
      rfl

/-- C1 witness: the spec's own scenario
`https://www.youtube.com/watch?v=dQw4w9WgXcQ&list=PL123`. -/
theorem extract_vparam_first_value_witness :
    extract_video_id "https://www.youtube.com/watch?v=dQw4w9WgXcQ&list=PL123" =
      .ok (some "dQw4w9WgXcQ") :=
  extract_vparam_first_value _ "dQw4w9WgXcQ" (by decide)

/-- C2, counterexample.  `https://youtu.be/abcdefghijkl` carries no `v`
parameter and its path token `abcdefghijkl` is twelve id characters long,
yet the fallback does match and returns the token's first eleven
characters: the trailing `.*` of the first pattern absorbs the surplus, so
overlong tokens are not rejected as the claim states. -/
theorem fallback_overlong_token_counterexample :
    vFirstValue "https://youtu.be/abcdefghijkl" = none ∧
      ("abcdefghijkl".length = 12 ∧ "abcdefghijkl".data.all isIdChar = true) ∧
      extract_video_id "https://youtu.be/abcdefghijkl" =
        .ok (some "abcdefghijk") := by
  refine ⟨by decide, ⟨by decide, by decide⟩, by decide⟩

/-- C2, amended.  On a path consisting of `/` followed by a run of
identifier characters, the fallback patterns match exactly when the run has
at least eleven characters, and the value returned is the run's first
eleven characters; in particular an exactly-eleven-character token is
returned whole (shortened-domain and embed URLs included) and a shorter
token produces no match, but a longer token is truncated rather than
rejected. -/
theorem fallback_token_matching :
    (∀ tok : List Char, (∀ c ∈ tok, isIdChar c = true) →
        searchPatterns ('/' :: tok) =
          if 11 ≤ tok.length then some (String.mk (tok.take 11)) else none) ∧
      extract_video_id "https://youtu.be/dQw4w9WgXcQ?si=abc123" =
        .ok (some "dQw4w9WgXcQ") ∧
      extract_video_id "https://www.youtube.com/embed/dQw4w9WgXcQ" =
        .ok (some "dQw4w9WgXcQ") ∧
      extract_video_id "https://youtu.be/abcde" = .ok none := by
  refine ⟨fun tok h => searchPatterns_slash_token h, by decide, by decide, by decide⟩

/-- C2 witness: the general statement applied to the eleven-character token
`dQw4w9WgXcQ`. -/
theorem fallback_token_matching_witness :
    searchPatterns ('/' :: "dQw4w9WgXcQ".data) = some "dQw4w9WgXcQ" := by
  rw [fallback_token_matching.1 "dQw4w9WgXcQ".data (by decide)]
  decide

/-- C3.  `extract_video_id` is not total: on
`https://[youtu.be/dQw4w9WgXcQ` (an unbalanced bracket in the netloc, a URL
that still passes the handler's `"youtu" in text` filter) `urlparse` raises
`ValueError("Invalid IPv6 URL")`, and line 43 calls it outside any
`try` block, so the exception propagates out of `extract_video_id` instead
of yielding `None` as the specification requires. -/
theorem extract_raises_on_bracket_netloc :
    extract_video_id "https://[youtu.be/dQw4w9WgXcQ" =
      .error "Invalid IPv6 URL" := by
  decide

/-! ### Helper lemmas about the format pipeline -/

/-- Everything the dedup loop outputs is an eligible member of its input. -/
theorem mem_dedupAux :
    ∀ {fs : List RawFormat} {seen : List String} {f : RawFormat},
      f ∈ dedupAux fs seen → eligibleFormat f = true ∧ f ∈ fs
  | [], _, _, h => absurd h (List.not_mem_nil _)
  | g :: fs, seen, f, h => by
    by_cases he : eligibleFormat g = true
    · by_cases hs : formatKey g ∈ seen
      · rw [dedupAux, if_neg (by simp [he]), if_pos hs] at h
        obtain ⟨h1, h2⟩ := mem_dedupAux h
        exact ⟨h1, List.mem_cons_of_mem _ h2⟩
      · rw [dedupAux, if_neg (by simp [he]), if_neg hs] at h
        rcases List.mem_cons.mp h with rfl | h'
        · exact ⟨he, List.mem_cons_self _ _⟩
        · obtain ⟨h1, h2⟩ := mem_dedupAux h'
          exact ⟨h1, List.mem_cons_of_mem _ h2⟩
    · rw [dedupAux, if_pos (by simp [Bool.not_eq_true] at he ⊢; exact he)] at h
      obtain ⟨h1, h2⟩ := mem_dedupAux h
      exact ⟨h1, List.mem_cons_of_mem _ h2⟩

/-- Keys already marked as seen never reappear in the loop's output. -/
theorem dedupAux_key_not_seen :
    ∀ {fs : List RawFormat} {seen : List String} {f : RawFormat},
      f ∈ dedupAux fs seen → formatKey f ∉ seen
  | [], _, _, h => absurd h (List.not_mem_nil _)
  | g :: fs, seen, f, h => by
    by_cases he : eligibleFormat g = true
    · by_cases hs : formatKey g ∈ seen
      · rw [dedupAux, if_neg (by simp [he]), if_pos hs] at h
        exact dedupAux_key_not_seen h
      · rw [dedupAux, if_neg (by simp [he]), if_neg hs] at h
        rcases List.mem_cons.mp h with rfl | h'
        · exact hs
        · have := dedupAux_key_not_seen h'
          exact fun hm => this (List.mem_cons_of_mem _ hm)
    · rw [dedupAux, if_pos (by simp [Bool.not_eq_true] at he ⊢; exact he)] at h
      exact dedupAux_key_not_seen h

/-- The loop's output has pairwise distinct dedup keys. -/
theorem dedupAux_pairwise_keys :
    ∀ (fs : List RawFormat) (seen : List String),
      (dedupAux fs seen).Pairwise (fun a b => formatKey a ≠ formatKey b)
  | [], _ => List.Pairwise.nil
  | g :: fs, seen => by
    by_cases he : eligibleFormat g = true
    · by_cases hs : formatKey g ∈ seen
      · rw [dedupAux, if_neg (by simp [he]), if_pos hs]
        exact dedupAux_pairwise_keys fs seen
      · rw [dedupAux, if_neg (by simp [he]), if_neg hs]
        refine List.Pairwise.cons ?_ (dedupAux_pairwise_keys fs _)
        intro b hb
        have := dedupAux_key_not_seen hb
        intro hgb
        exact this (hgb ▸ List.mem_cons_self _ _)
    · rw [dedupAux, if_pos (by simp [Bool.not_eq_true] at he ⊢; exact he)]
      exact dedupAux_pairwise_keys fs seen

/-- Characterization of the loop's output on one key: nothing when the key
was already seen, otherwise the first eligible input entry with that key. -/
theorem dedupAux_filter_key (k : String) :
    ∀ (fs : List RawFormat) (seen : List String),
      (dedupAux fs seen).filter (fun f => formatKey f == k) =
        if k ∈ seen then []
        else ((fs.filter (fun f => eligibleFormat f)).filter
                (fun f => formatKey f == k)).take 1
  | [], seen => by
    by_cases hs : k ∈ seen <;> simp [dedupAux, hs]
  | g :: fs, seen => by
    have ih := dedupAux_filter_key k fs
    by_cases he : eligibleFormat g = true
    · by_cases hs : formatKey g ∈ seen
      · rw [dedupAux, if_neg (by simp [he]), if_pos hs, ih seen]
        by_cases hk : formatKey g = k
        · rw [if_pos (hk ▸ hs), if_pos (hk ▸ hs)]
        · have hgk : (formatKey g == k) = false := by simpa using hk
          by_cases hks : k ∈ seen
          · rw [if_pos hks, if_pos hks]
          · rw [if_neg hks, if_neg hks]
            simp only [List.filter_cons, he, hgk, if_true, if_false]
            simp
      · rw [dedupAux, if_neg (by simp [he]), if_neg hs]
        by_cases hk : formatKey g = k
        · have hkn : k ∉ seen := hk ▸ hs
          have hgk : (formatKey g == k) = true := by simpa using hk
          have hmem : k ∈ formatKey g :: seen := by
            rw [← hk]; exact List.mem_cons_self _ _
          rw [if_neg hkn]
          simp only [List.filter_cons, he, hgk, if_true]
          rw [ih (formatKey g :: seen), if_pos hmem]
          simp
        · have hgk : (formatKey g == k) = false := by simpa using hk
          have hmem : (k ∈ formatKey g :: seen) ↔ (k ∈ seen) := by
            constructor
            · intro hm
              rcases List.mem_cons.mp hm with h1 | h1
              · exact absurd h1.symm hk
              · exact h1
            · exact fun hm => List.mem_cons_of_mem _ hm
          simp only [List.filter_cons, he, hgk, if_true, if_false]
          rw [ih (formatKey g :: seen)]
          by_cases hks : k ∈ seen
          · rw [if_pos (hmem.mpr hks), if_pos hks]
            simp
          · rw [if_neg (fun hm => hks (hmem.mp hm)), if_neg hks]
            simp
    · have hef : eligibleFormat g = false := by simpa using he
      rw [dedupAux, if_pos (by simp [hef]), ih seen]
      simp only [List.filter_cons, hef, if_false]
      simp

/-- Filtering one height class through `orderedInsert`: the inserted entry
lands in front of its own class and the other entries of the class keep
their order. -/
theorem filter_key_orderedInsert (h : Int) (a : RawFormat) :
    ∀ s : List RawFormat,
      (List.orderedInsert heightGE a s).filter (fun f => keyHeight f == h) =
        if keyHeight a == h then
          a :: s.filter (fun f => keyHeight f == h)
        else s.filter (fun f => keyHeight f == h)
  | [] => by
    by_cases hpa : (keyHeight a == h) = true <;>
      simp [List.orderedInsert, List.filter_cons, hpa]
  | b :: t => by
    rw [List.orderedInsert]
    by_cases hab : heightGE a b
    · rw [if_pos hab]
      by_cases hpa : (keyHeight a == h) = true
      · simp [List.filter_cons, hpa]
      · have hpa' : (keyHeight a == h) = false := by simpa using hpa
        simp [List.filter_cons, hpa']
    · rw [if_neg hab]
      have hlt : keyHeight a < keyHeight b := by
        unfold heightGE at hab
        omega
      by_cases hpa : (keyHeight a == h) = true
      · have hpb : (keyHeight b == h) = false := by
          have ha : keyHeight a = h := by simpa using hpa
          simp only [beq_eq_false_iff_ne, ne_eq]
          omega
        simp [List.filter_cons, hpa, hpb, filter_key_orderedInsert h a t]
      · have hpa' : (keyHeight a == h) = false := by simpa using hpa
        simp [List.filter_cons, hpa', filter_key_orderedInsert h a t]

/-- Stability of the modelled sort: each height class of the output is the
corresponding height class of the input, in the same order. -/
theorem filter_key_insertionSort (h : Int) :
    ∀ m : List RawFormat,
      (List.insertionSort heightGE m).filter (fun f => keyHeight f == h) =
        m.filter (fun f => keyHeight f == h)
  | [] => rfl
  | a :: m => by
    rw [List.insertionSort, filter_key_orderedInsert h a]
    by_cases hpa : (keyHeight a == h) = true
    · simp [List.filter_cons, hpa, filter_key_insertionSort h m]
    · have hpa' : (keyHeight a == h) = false := by simpa using hpa
      simp [List.filter_cons, hpa', filter_key_insertionSort h m]

/-- Entries of the resolved list are eligible members of the raw list. -/
theorem resolveFormats_mem {l : List RawFormat} {f : RawFormat}
    (h : f ∈ resolveFormats l) : eligibleFormat f = true ∧ f ∈ l := by
  unfold resolveFormats at h
  rw [List.mem_insertionSort] at h
  exact mem_dedupAux h

/-! ### Fixtures used by the format-pipeline claims -/

/-- Combined-stream 720p entry (the `22`-style format). -/
def f720 : RawFormat :=
  { format_id := some "22", ext := some "mp4", resolution := some "1280x720",
    height := some (some 720), vcodec := some "avc1", acodec := some "mp4a" }

/-- Entry whose `height` key is present with the value `None`. -/
def fNone : RawFormat :=
  { format_id := some "meta", ext := some "mp4", resolution := some "unknown",
    height := some none, vcodec := some "avc1", acodec := some "mp4a" }

/-- Combined-stream 1080p entry. -/
def f1080 : RawFormat :=
  { format_id := some "37", ext := some "mp4", resolution := some "1920x1080",
    height := some (some 1080), vcodec := some "avc1", acodec := some "mp4a" }

/-- Combined-stream 480p entry. -/
def f480 : RawFormat :=
  { format_id := some "35", ext := some "flv", resolution := some "854x480",
    height := some (some 480), vcodec := some "avc1", acodec := some "mp4a" }

/-- Entry whose resolution label contains an underscore, so that its dedup
key collides with a different (resolution, extension) pair. -/
def cxA : RawFormat :=
  { format_id := some "a", ext := some "c", resolution := some "a_b",
    height := some (some 360), vcodec := some "avc1", acodec := some "mp4a" }

/-- Entry with pair (`a`, `b_c`): a pair distinct from `cxA`'s, but with the
same concatenated key `a_b_c`. -/
def cxB : RawFormat :=
  { format_id := some "b", ext := some "b_c", resolution := some "a",
    height := some (some 720), vcodec := some "avc1", acodec := some "mp4a" }

/-- Entry with `vcodec` carrying the explicit `'none'` marker. -/
def cxMarked : RawFormat :=
  { format_id := some "140", ext := some "m4a", resolution := some "audio only",
    height := some none, vcodec := some "none", acodec := some "mp4a" }

/-- Entry from which both codec keys are entirely absent. -/
def noCodecKeys : RawFormat :=
  { format_id := some "18", ext := some "mp4", resolution := some "640x360",
    height := some (some 360) }

/-! ### Claims about the format pipeline -/

/-- C4, counterexample.  In the list `[cxA, cxB, cxB]` the two `cxB`
entries are eligible and share the pair (resolution `a`, extension `b_c`),
so the claim demands that the first of them be kept; but the dedup key is
the bare string concatenation `resolution_ext`, on which `cxA` (resolution
`a_b`, extension `c`) collides with `cxB`, so the output is `[cxA]` and no
entry with `cxB`'s pair survives. -/
theorem dedup_key_collision_counterexample :
    eligibleFormat cxB = true ∧
      (cxB.resolution, cxB.ext) ≠ (cxA.resolution, cxA.ext) ∧
      dedupFormats [cxA, cxB, cxB] = [cxA] ∧
      ∀ f ∈ dedupFormats [cxA, cxB, cxB],
        (f.resolution, f.ext) ≠ (cxB.resolution, cxB.ext) := by
  refine ⟨by decide, by decide, by decide, by decide⟩

/-- C4, amended.  The dedup key is the string `resolution + "_" + ext`
(resolution defaulting to `N/A`, extension to the empty string).  The
output contains at most one entry per key — hence at most one per
(resolution, extension) pair — and for each key the surviving entry is the
first-seen eligible entry with that key, kept with all of its attributes;
two distinct pairs can collide on the key (an underscore inside the
resolution label), in which case only the earlier pair's entry survives. -/
theorem dedup_first_per_key (l : List RawFormat) :
    (dedupFormats l).Pairwise
        (fun a b => ¬(a.resolution = b.resolution ∧ a.ext = b.ext)) ∧
      ∀ k : String,
        (dedupFormats l).filter (fun f => formatKey f == k) =
          ((l.filter (fun f => eligibleFormat f)).filter
              (fun f => formatKey f == k)).take 1 := by
  constructor
  · have hp := dedupAux_pairwise_keys l []
    refine hp.imp ?_
    intro a b hk hpair
    exact hk (by unfold formatKey; rw [hpair.1, hpair.2])
  · intro k
    have hchar := dedupAux_filter_key k l []
    simpa [dedupFormats] using hchar

/-- C5.  The resolved list is sorted by descending `keyHeight` (absent or
`None` height counting as zero, so unknown resolutions sort last); the sort
is stable (each height class keeps its discovery order); and on the spec's
example heights `[720, None, 1080, 480]` the output order is
`[1080, 720, 480, None]`. -/
theorem formats_sorted_by_height :
    (∀ l : List RawFormat, List.Sorted heightGE (resolveFormats l)) ∧
      (∀ (l : List RawFormat) (h : Int),
        (resolveFormats l).filter (fun f => keyHeight f == h) =
          (dedupFormats l).filter (fun f => keyHeight f == h)) ∧
      resolveFormats [f720, fNone, f1080, f480] = [f1080, f720, f480, fNone] := by
  refine ⟨fun l => ?_, fun l h => ?_, by decide⟩
  · unfold resolveFormats
    exact List.sorted_insertionSort heightGE (dedupFormats l)
  · unfold resolveFormats
    exact filter_key_insertionSort h (dedupFormats l)

/-- C6.  An entry reaches the resolved list only if neither codec field
carries the explicit `'none'` marker, and every entry marked `'none'` on
either side (audio-only or video-only stream) is excluded. -/
theorem formats_exclude_marked_none (l : List RawFormat) (f : RawFormat) :
    (f ∈ resolveFormats l →
        f.vcodec ≠ some "none" ∧ f.acodec ≠ some "none") ∧
      ((f.vcodec = some "none" ∨ f.acodec = some "none") →
        f ∉ resolveFormats l) := by
  constructor
  · intro hm
    have he := (resolveFormats_mem hm).1
    unfold eligibleFormat at he
    simp only [Bool.not_eq_eq_eq_not, Bool.not_true, Bool.or_eq_false_iff,
      beq_eq_false_iff_ne, ne_eq] at he
    exact ⟨he.1, he.2⟩
  · intro hmark hm
    have he := (resolveFormats_mem hm).1
    unfold eligibleFormat at he
    rcases hmark with h1 | h1 <;> simp [h1] at he

/-- C6 witness: an audio-only entry (video codec marked `'none'`) is not in
the resolved list built from it. -/
theorem formats_exclude_marked_none_witness :
    cxMarked ∉ resolveFormats [cxMarked] :=
  (formats_exclude_marked_none [cxMarked] cxMarked).2 (Or.inl rfl)

/-- C10.  A missing codec key (Python `None`, as opposed to the explicit
`'none'` marker string) does not trigger the eligibility filter, and an
entry with both codec keys absent appears in the resolved list. -/
theorem missing_codec_keys_retained :
    (∀ f : RawFormat, (f.vcodec = none ∨ f.acodec = none) →
        f.vcodec ≠ some "none" → f.acodec ≠ some "none" →
        eligibleFormat f = true) ∧
      resolveFormats [noCodecKeys] = [noCodecKeys] := by
  constructor
  · intro f hor hv ha
    unfold eligibleFormat
    simp [hv, ha]
  · decide

/-- C10 witness: the filter keeps the entry with both codec keys absent. -/
theorem missing_codec_keys_retained_witness :
    eligibleFormat noCodecKeys = true :=
  missing_codec_keys_retained.1 noCodecKeys (Or.inl rfl) (by decide) (by decide)

/-! ### Helper lemmas about the downloader and the handler -/

/-- The rewritten path always ends in `.mp4`, so it is never empty. -/
theorem rewriteExt_ne_empty (p : String) : rewriteExt p ≠ "" := by
  unfold rewriteExt
  by_cases h : endsWithMp4 p.data = true
  · rw [if_pos h]
    intro he
    rw [he] at h
    exact absurd h (by decide)
  · rw [if_neg h]
    intro he
    have hdata : splitextStemL p.data ++ ".mp4".data = [] :=
      congrArg String.data he
    simp at hdata

/-- Anatomy of a successful `download`: the reported path is the rewritten
prepared name and it exists on the post-call filesystem. -/
theorem downloadRun_some {o : DlCall} {p : String}
    (h : (downloadRun o).1.2.2 = some p) :
    (downloadRun o).1 = (true, "Success", some p) ∧
      p = rewriteExt o.preparedPath ∧ p ∈ o.fsAfter ∧
      (downloadRun o).2 = o.fsAfter := by
  unfold downloadRun at h ⊢
  cases hr : o.raised with
  | some e => rw [hr] at h; simp at h
  | none =>
    rw [hr] at h
    dsimp only at h ⊢
    by_cases hm : rewriteExt o.preparedPath ∈ o.fsAfter
    · rw [if_pos hm] at h ⊢
      simp only [Option.some.injEq] at h
      subst h
      exact ⟨rfl, rfl, hm, rfl⟩
    · rw [if_neg hm] at h
      simp at h

/-! ### Claims about the downloader and the handler -/

/-- The downloader-call oracle of the C8 counterexample: the collaborator
reports the name `downloads/a.b/video` and the file actually produced is
`downloads/a.b/video.mp4`. -/
def cxDl : DlCall :=
  { raised := none, preparedPath := "downloads/a.b/video",
    fsAfter := ["downloads/a.b/video.mp4"] }

/-- C8, counterexample.  The claim says the path's segment after the last
`.` is replaced by the extension; on `downloads/a.b/video` that reading
yields `downloads/a.mp4` (the last dot is inside a directory name), which
does not exist — so the claim predicts a failure — yet the code's
`os.path.splitext` leaves directory dots alone, appends `.mp4` to the whole
name, finds the file and succeeds. -/
theorem download_rewrite_counterexample :
    specRewrite "downloads/a.b/video" = "downloads/a.mp4" ∧
      ("downloads/a.mp4" : String) ∉ cxDl.fsAfter ∧
      (downloadRun cxDl).1 =
        (true, "Success", some "downloads/a.b/video.mp4") := by
  refine ⟨by decide, by decide, by decide⟩

/-- C8, amended.  When the produced file's name does not already end in
`.mp4`, the rewrite follows `os.path.splitext`: the suffix after the last
`.` of the final `/`-segment is dropped (dots inside directory names and
leading dots of the final segment are not extension separators) and `.mp4`
is appended.  If the resulting path does not exist the download returns the
failure `Video yuklab olinmadi`, and every success carries a path that
exists on the post-call filesystem. -/
theorem download_rewrite_and_materialize (o : DlCall) :
    (o.raised = none → rewriteExt o.preparedPath ∉ o.fsAfter →
        (downloadRun o).1 = (false, "Video yuklab olinmadi", none)) ∧
      ∀ p : String, (downloadRun o).1.2.2 = some p →
        (downloadRun o).1.1 = true ∧ p = rewriteExt o.preparedPath ∧
          p ∈ o.fsAfter := by
  constructor
  · intro hr hm
    unfold downloadRun
    rw [hr]
    dsimp only
    rw [if_neg hm]
  · intro p h
    obtain ⟨h1, h2, h3, _⟩ := downloadRun_some h
    exact ⟨by rw [h1], h2, h3⟩

/-- A collaborator call that reports `downloads/clip.webm` while the
filesystem stays empty. -/
def cxDlVanish : DlCall :=
  { raised := none, preparedPath := "downloads/clip.webm", fsAfter := [] }

/-- C8 witness: the vanished download is reported as a failure. -/
theorem download_rewrite_and_materialize_witness :
    (downloadRun cxDlVanish).1 = (false, "Video yuklab olinmadi", none) :=
  (download_rewrite_and_materialize cxDlVanish).1 rfl (by decide)

/-- C7.  A selection event naming a video id absent from the cache: the
handler answers the "not found" diagnostic and terminates with the state
(cache and filesystem) unchanged, and the trace contains no downloader
invocation. -/
theorem selection_unknown_id_no_side_effects
    (data : String) (s : BotState) (o : SelOracle) (t vid fid : List Char)
    (hsplit : pySplit '_' data.data = [t, vid, fid])
    (hmiss : lookupCache (String.mk vid) s.cache = none) :
    processFormatSelection data s o = (s, [.answerCb notFoundMsg]) ∧
      ∀ u f, BotAction.invokeDownload u f ∉ (processFormatSelection data s o).2 := by
  have hres : processFormatSelection data s o = (s, [.answerCb notFoundMsg]) := by
    unfold processFormatSelection
    rw [hsplit]
    dsimp only
    rw [hmiss]
  refine ⟨hres, ?_⟩
  rw [hres]
  intro u f hm
  simp at hm

/-- C7 witness: an unknown id `zzz` against a cache holding only `abc`. -/
theorem selection_unknown_id_no_side_effects_witness :
    processFormatSelection "format_zzz_18"
        ⟨[("abc", ⟨"https://u", "T"⟩)], []⟩
        ⟨⟨none, "", []⟩, none⟩ =
      (⟨[("abc", ⟨"https://u", "T"⟩)], []⟩, [.answerCb notFoundMsg]) :=
  (selection_unknown_id_no_side_effects "format_zzz_18"
    ⟨[("abc", ⟨"https://u", "T"⟩)], []⟩ ⟨⟨none, "", []⟩, none⟩
    "format".data "zzz".data "18".data (by decide) (by decide)).1

/-- C9.  Whenever the handler reaches the upload step with a downloaded
file (parseable callback data, cache hit, download success reporting path
`p`), the `finally` block removes `p`: the trace contains the removal and
`p` is not on the final filesystem — whether or not the upload raises. -/
theorem upload_cleanup_always_removes
    (data : String) (s : BotState) (o : SelOracle) (t vid fid : List Char)
    (info : CachedVideo) (p : String)
    (hsplit : pySplit '_' data.data = [t, vid, fid])
    (hhit : lookupCache (String.mk vid) s.cache = some info)
    (hdl : (downloadRun o.dl).1.2.2 = some p) :
    BotAction.removeFile p ∈ (processFormatSelection data s o).2 ∧
      p ∉ (processFormatSelection data s o).1.files := by
  obtain ⟨h1, hp, hmem, hfs⟩ := downloadRun_some hdl
  have hpne : p ≠ "" := hp ▸ rewriteExt_ne_empty o.dl.preparedPath
  cases houp : o.uploadRaised with
  | none =>
    constructor
    · simp [processFormatSelection, hsplit, hhit, h1, hfs, hpne, houp]
    · simp [processFormatSelection, hsplit, hhit, h1, hfs, hpne, houp,
        List.mem_filter]
  | some e =>
    constructor
    · simp [processFormatSelection, hsplit, hhit, h1, hfs, hpne, houp]
    · simp [processFormatSelection, hsplit, hhit, h1, hfs, hpne, houp,
        List.mem_filter]

/-- C9 witness: a concrete run (cache hit on `abc`, download succeeding
with `downloads/T.mp4`, upload succeeding) removes the scratch file. -/
theorem upload_cleanup_always_removes_witness :
    BotAction.removeFile "downloads/T.mp4" ∈
        (processFormatSelection "format_abc_18"
          ⟨[("abc", ⟨"https://u", "T"⟩)], []⟩
          ⟨⟨none, "downloads/T.webm", ["downloads/T.mp4"]⟩, none⟩).2 ∧
      ("downloads/T.mp4" : String) ∉
        (processFormatSelection "format_abc_18"
          ⟨[("abc", ⟨"https://u", "T"⟩)], []⟩
          ⟨⟨none, "downloads/T.webm", ["downloads/T.mp4"]⟩, none⟩).1.files :=
  upload_cleanup_always_removes "format_abc_18"
    ⟨[("abc", ⟨"https://u", "T"⟩)], []⟩
    ⟨⟨none, "downloads/T.webm", ["downloads/T.mp4"]⟩, none⟩
    "format".data "abc".data "18".data ⟨"https://u", "T"⟩ "downloads/T.mp4"
    (by decide) (by decide) (by decide)
